import Mathlib

/-!
Verification of the raw-ipa execution core against its specification.

The Rust sources are shallowly embedded as Lean definitions:
* `src/report.rs` — matchkey report model (`DecryptedMatchkeys`,
  `any_matches`, `n_matches`, `count_matches`, the `PartialEq` instance);
* `src/pipeline/hashmap_thread.rs` — the rendezvous store actor
  (`HashMapHandler`, `HashMapCommand`, `write`, `remove`, `run`);
* `src/bin/async_pipe.rs` — the example pipeline steps
  (`Start`, `Add`, `PairWith3`, `ForwardData`) and the 4-step pipeline;
* `src/bin/ipa_bench/init.rs` — synthetic event generation
  (`generate_events`, `gen_events`, `gen_matchkeys`).
-/

/- ---------------------------------------------------------------- -/
/- Matchkey report model (src/report.rs)                            -/
/- ---------------------------------------------------------------- -/

/-- Curve points carry nothing the report model uses except a decidable
equality, so the embedding represents `RistrettoPoint` by `Nat`. -/
abbrev RistrettoPoint := Nat

/-- Embedding of `DecryptedMatchkeys`: the `HashMap<String, RistrettoPoint>`
is represented by its entry list (key uniqueness and ordering are irrelevant
to every operation the source performs on it). -/
structure DecryptedMatchkeys where
  match_keys : List (String × RistrettoPoint)

/-- The `values()` view of the underlying map. -/
def mapValues (m : List (String × RistrettoPoint)) : List RistrettoPoint :=
  m.map Prod.snd

/-- Embedding of `any_matches` (report.rs): some element of `a` equals some
element of `b`. -/
def any_matches (a b : List RistrettoPoint) : Bool :=
  a.any fun x => b.any fun y => x == y

/-- Embedding of `n_matches` (report.rs): for each element of `a`, the number
of elements of `b` equal to it, summed. -/
def n_matches (a b : List RistrettoPoint) : Nat :=
  (a.map fun x => (b.filter fun y => x == y).length).sum

/-- Embedding of `impl PartialEq for DecryptedMatchkeys`: `eq` is
`any_matches` over the two value collections. -/
def DecryptedMatchkeys.eq (a b : DecryptedMatchkeys) : Bool :=
  any_matches (mapValues a.match_keys) (mapValues b.match_keys)

/-- Embedding of `DecryptedMatchkeys::count_matches`. -/
def DecryptedMatchkeys.count_matches (a b : DecryptedMatchkeys) : Nat :=
  n_matches (mapValues a.match_keys) (mapValues b.match_keys)

/- ---------------------------------------------------------------- -/
/- Helper lemmas about the report model                             -/
/- ---------------------------------------------------------------- -/

theorem any_matches_iff (a b : List RistrettoPoint) :
    any_matches a b = true ↔ ∃ x ∈ a, ∃ y ∈ b, x = y := by
  simp [any_matches]

theorem point_beq_comm (x y : RistrettoPoint) : (x == y) = (y == x) := by
  by_cases h : x = y
  · subst h; rfl
  · rw [beq_eq_false_iff_ne.mpr h, beq_eq_false_iff_ne.mpr (Ne.symm h)]

theorem n_matches_nil (b : List RistrettoPoint) : n_matches [] b = 0 := rfl

theorem n_matches_cons (x : RistrettoPoint) (a b : List RistrettoPoint) :
    n_matches (x :: a) b = (b.filter fun y => x == y).length + n_matches a b := by
  simp [n_matches]

theorem filter_eq_length_zero (b : List RistrettoPoint) :
    n_matches b [] = 0 := by
  induction b with
  | nil => rfl
  | cons y b ih => simp [n_matches_cons, ih]

theorem n_matches_cons_right (a : List RistrettoPoint) (y : RistrettoPoint)
    (b : List RistrettoPoint) :
    n_matches a (y :: b) = (a.filter fun x => x == y).length + n_matches a b := by
  induction a with
  | nil => simp [n_matches_nil]
  | cons x a ih =>
    simp only [n_matches_cons, ih, List.filter_cons]
    by_cases h : x = y
    · subst h
      simp only [beq_self_eq_true, if_pos]
      simp [List.length_cons]
      omega
    · have hxy : (x == y) = false := beq_eq_false_iff_ne.mpr h
      have hyx : (y == x) = false := beq_eq_false_iff_ne.mpr (Ne.symm h)
      simp [hxy, hyx]
      omega

theorem n_matches_comm (a b : List RistrettoPoint) :
    n_matches a b = n_matches b a := by
  induction a with
  | nil => simp [n_matches_nil, filter_eq_length_zero]
  | cons x a ih =>
    rw [n_matches_cons, n_matches_cons_right, ih]
    congr 1
    apply congrArg
    apply List.filter_congr
    intro y _
    exact point_beq_comm _ _

theorem count_eq_filter_length (x : RistrettoPoint) (b : List RistrettoPoint) :
    (b.filter fun y => x == y).length = b.count x := by
  rw [List.count, List.countP_eq_length_filter]
  apply congrArg
  apply List.filter_congr
  intro y _
  exact point_beq_comm _ _

/- ---------------------------------------------------------------- -/
/- Claim theorems for the report model                              -/
/- ---------------------------------------------------------------- -/

/-- C1: equality (`==`) between two `DecryptedMatchkeys` is true iff at least
one group element among the first map's values equals at least one group
element among the second map's values; it is not structural equality of the
underlying maps (two structurally different maps can compare equal). -/
theorem decrypted_matchkeys_eq_iff_any_shared :
    (∀ A B : DecryptedMatchkeys,
       A.eq B = true ↔
         ∃ x ∈ mapValues A.match_keys, ∃ y ∈ mapValues B.match_keys, x = y) ∧
    (∃ A B : DecryptedMatchkeys,
       A.eq B = true ∧ A.match_keys ≠ B.match_keys) := by
  constructor
  · intro A B
    exact any_matches_iff _ _
  · refine ⟨⟨[("a", 1)]⟩, ⟨[("b", 1)]⟩, by decide, by simp⟩

/-- C2 (amended): `count_matches A B` is the sum, over every element `x` of
`A`'s values, of the number of elements of `B`'s values equal to `x` (a
many-to-many count in which duplicates on either side each contribute); and
`count_matches A B = count_matches B A` always holds — symmetry is in fact
guaranteed, duplicates included. -/
theorem count_matches_spec_and_symm :
    (∀ A B : DecryptedMatchkeys,
       A.count_matches B =
         ((mapValues A.match_keys).map
           fun x => (mapValues B.match_keys).count x).sum) ∧
    (∀ A B : DecryptedMatchkeys, A.count_matches B = B.count_matches A) := by
  constructor
  · intro A B
    unfold DecryptedMatchkeys.count_matches n_matches
    apply congrArg
    apply List.map_congr_left
    intro x _
    exact count_eq_filter_length x _
  · intro A B
    exact n_matches_comm _ _

/-- C2 counterexample: at the claim's own prescribed input — `A` with a
duplicated value — `count_matches` is symmetric (both directions give 2),
contradicting the assertion that symmetry is not guaranteed when `A`
contains duplicate values. -/
theorem count_matches_symm_at_duplicates :
    DecryptedMatchkeys.count_matches ⟨[("a", 5), ("b", 5)]⟩ ⟨[("c", 5)]⟩ = 2 ∧
    DecryptedMatchkeys.count_matches ⟨[("c", 5)]⟩ ⟨[("a", 5), ("b", 5)]⟩ = 2 := by
  decide

/-- C9: the `DecryptedMatchkeys` equality operator is reflexive exactly on
nonempty maps: `d.eq d` is `true` when `d` has at least one entry and `false`
when it has none (an empty set is equal to nothing, itself included). -/
theorem decrypted_matchkeys_eq_refl_iff_nonempty :
    ∀ d : DecryptedMatchkeys, d.eq d = !d.match_keys.isEmpty := by
  intro d
  cases h : d.match_keys with
  | nil => simp [DecryptedMatchkeys.eq, any_matches, mapValues, h]
  | cons p rest =>
    simp only [List.isEmpty_cons, Bool.not_false]
    rw [show DecryptedMatchkeys.eq d d =
          any_matches (mapValues d.match_keys) (mapValues d.match_keys) from rfl]
    rw [any_matches_iff]
    exact ⟨p.2, by simp [mapValues, h], p.2, by simp [mapValues, h], rfl⟩

/-- C10: the `DecryptedMatchkeys` equality operator is symmetric — `A.eq B`
holds iff `B.eq A` holds, even though `count_matches` is written
asymmetrically, because the existence of a matching pair of group elements
does not depend on argument order. -/
theorem decrypted_matchkeys_eq_symm :
    ∀ A B : DecryptedMatchkeys, (A.eq B = true ↔ B.eq A = true) := by
  intro A B
  rw [show A.eq B = any_matches (mapValues A.match_keys) (mapValues B.match_keys)
        from rfl,
      show B.eq A = any_matches (mapValues B.match_keys) (mapValues A.match_keys)
        from rfl,
      any_matches_iff, any_matches_iff]
  constructor
  · rintro ⟨x, hx, y, hy, hxy⟩
    exact ⟨y, hy, x, hx, hxy.symm⟩
  · rintro ⟨x, hx, y, hy, hxy⟩
    exact ⟨y, hy, x, hx, hxy.symm⟩

/- ---------------------------------------------------------------- -/
/- Rendezvous store actor (src/pipeline/hashmap_thread.rs)          -/
/- ---------------------------------------------------------------- -/

/-- A 128-bit correlation identifier, represented by `Nat`. -/
abbrev Uuid := Nat

/-- An opaque byte payload (`Vec<u8>`), represented by a list of bytes. -/
abbrev Bytes := List Nat

/-- Embedding of `HashMapCommand`. The `oneshot::Sender` acknowledgement
channel is represented by the one bit of it the handler can observe: whether
the receiving end is still alive when `send` is attempted (`ackAlive`). -/
inductive HashMapCommand where
  | Write (key : Uuid) (value : Bytes) (ackAlive : Bool)
  | Remove (key : Uuid) (ackAlive : Bool)

/-- Embedding of `HashMapHandler`: the actor's name and its table. The
`HashMap<Uuid, Vec<u8>>` is represented by an entry list whose operations
preserve key uniqueness. -/
structure HashMapHandler where
  name : String
  m : List (Uuid × Bytes)

/-- Lookup in the table (`HashMap::get` semantics). -/
def hm_lookup (m : List (Uuid × Bytes)) (key : Uuid) : Option Bytes :=
  (m.find? fun p => p.1 == key).map Prod.snd

/-- Embedding of `HashMap::insert`: stores `value` under `key` and returns
the previously stored value (`None` if the key was absent). -/
def hm_insert (m : List (Uuid × Bytes)) (key : Uuid) (value : Bytes) :
    Option Bytes × List (Uuid × Bytes) :=
  (hm_lookup m key, (key, value) :: m.filter fun p => p.1 != key)

/-- Embedding of `HashMap::remove`: deletes the entry for `key` and returns
the removed value (`None` if the key was absent). -/
def hm_remove (m : List (Uuid × Bytes)) (key : Uuid) :
    Option Bytes × List (Uuid × Bytes) :=
  (hm_lookup m key, m.filter fun p => p.1 != key)

/-- What the handler's processing of one command produces: the value sent on
the acknowledgement channel, whether the `ack.send` succeeded, and whether
the loop logged a failure for this command. -/
structure CmdResult where
  reply : Option Bytes
  delivered : Bool
  logged : Bool

/-- Embedding of `HashMapHandler::write`: insert, then attempt to send the
ousted value on the acknowledgement channel; the returned `Bool` is the
`Res<()>` outcome (`false` = the oneshot receiver was already dropped). -/
def HashMapHandler.write (h : HashMapHandler) (key : Uuid) (value : Bytes)
    (ackAlive : Bool) : HashMapHandler × Option Bytes × Bool :=
  let ousted := hm_lookup h.m key
  (⟨h.name, (hm_insert h.m key value).2⟩, ousted, ackAlive)

/-- Embedding of `HashMapHandler::remove`: delete, then attempt to send the
removed value on the acknowledgement channel. -/
def HashMapHandler.remove (h : HashMapHandler) (key : Uuid) (ackAlive : Bool) :
    HashMapHandler × Option Bytes × Bool :=
  let removed := hm_lookup h.m key
  (⟨h.name, (hm_remove h.m key).2⟩, removed, ackAlive)

/-- Embedding of `HashMapHandler::run`: process the serial command stream to
exhaustion; a failed acknowledgement is logged (`logged = true`) and the loop
continues with the next command. -/
def HashMapHandler.run (h : HashMapHandler) :
    List HashMapCommand → HashMapHandler × List CmdResult
  | [] => (h, [])
  | c :: cs =>
    let step : HashMapHandler × Option Bytes × Bool :=
      match c with
      | .Write key value ackAlive => h.write key value ackAlive
      | .Remove key ackAlive => h.remove key ackAlive
    let rest := HashMapHandler.run step.1 cs
    (rest.1, ⟨step.2.1, step.2.2, !step.2.2⟩ :: rest.2)

/- ---------------------------------------------------------------- -/
/- Helper lemmas about the rendezvous store                         -/
/- ---------------------------------------------------------------- -/

theorem hm_lookup_filter_self (m : List (Uuid × Bytes)) (key : Uuid) :
    hm_lookup (m.filter fun p => p.1 != key) key = none := by
  induction m with
  | nil => rfl
  | cons p m ih =>
    by_cases h : p.1 = key
    · simpa [List.filter_cons, h] using ih
    · have hne : (p.1 != key) = true := by simp [bne, h]
      simp only [List.filter_cons, hne, if_pos trivial]
      rw [hm_lookup, List.find?_cons_of_neg, ← hm_lookup]
      · exact ih
      · simp [h]

theorem hm_lookup_insert_self (m : List (Uuid × Bytes)) (key : Uuid)
    (value : Bytes) : hm_lookup (hm_insert m key value).2 key = some value := by
  simp [hm_insert, hm_lookup, List.find?_cons_of_pos]

theorem hm_run_length (h : HashMapHandler) (cmds : List HashMapCommand) :
    (h.run cmds).2.length = cmds.length := by
  induction cmds generalizing h with
  | nil => rfl
  | cons c cs ih =>
    cases c with
    | Write key value ackAlive => simpa [HashMapHandler.run] using ih _
    | Remove key ackAlive => simpa [HashMapHandler.run] using ih _

/- ---------------------------------------------------------------- -/
/- Claim theorems for the rendezvous store                          -/
/- ---------------------------------------------------------------- -/

/-- C3: processing `Write(key, payload, reply)` inserts the payload under the
key and replies with whatever was previously stored at that key (`none` if
absent); in particular, a second write of `v₂` to the same key after writing
`v₁` (with no intervening removal) replies `some v₁` as the ousted value. -/
theorem rendezvous_write_replies_with_previous :
    ∀ (m : List (Uuid × Bytes)) (key : Uuid) (v v₁ v₂ : Bytes)
      (h : HashMapHandler) (a : Bool) (cs : List HashMapCommand),
      (hm_insert m key v).1 = hm_lookup m key ∧
      hm_lookup (hm_insert m key v).2 key = some v ∧
      (hm_insert (hm_insert m key v₁).2 key v₂).1 = some v₁ ∧
      (HashMapHandler.run h (.Write key v a :: cs)).2.head? =
        some ⟨hm_lookup h.m key, a, !a⟩ := by
  intro m key v v₁ v₂ h a cs
  refine ⟨rfl, hm_lookup_insert_self m key v, ?_, ?_⟩
  · rw [show (hm_insert (hm_insert m key v₁).2 key v₂).1 =
          hm_lookup (hm_insert m key v₁).2 key from rfl]
    exact hm_lookup_insert_self m key v₁
  · rfl

/-- C6: when delivering a command's one-shot acknowledgement fails because
the receiver was dropped (`ackAlive = false`), the store logs the failure and
continues: subsequent commands are processed exactly as they would have been,
one result is produced per command, and the table update of the failed
command (insert or remove) is still applied. -/
theorem rendezvous_ack_failure_logged_and_continues :
    ∀ (h : HashMapHandler) (key : Uuid) (v : Bytes) (cs : List HashMapCommand),
      (HashMapHandler.run h (.Write key v false :: cs)).2.head? =
        some ⟨hm_lookup h.m key, false, true⟩ ∧
      (HashMapHandler.run h (.Write key v false :: cs)).1 =
        (HashMapHandler.run ⟨h.name, (hm_insert h.m key v).2⟩ cs).1 ∧
      (HashMapHandler.run h (.Write key v false :: cs)).2.tail =
        (HashMapHandler.run ⟨h.name, (hm_insert h.m key v).2⟩ cs).2 ∧
      hm_lookup (hm_insert h.m key v).2 key = some v ∧
      (HashMapHandler.run h (.Write key v false :: cs)).2.length =
        cs.length + 1 ∧
      (HashMapHandler.run h (.Remove key false :: cs)).2.head? =
        some ⟨hm_lookup h.m key, false, true⟩ ∧
      (HashMapHandler.run h (.Remove key false :: cs)).1 =
        (HashMapHandler.run ⟨h.name, (hm_remove h.m key).2⟩ cs).1 ∧
      hm_lookup (hm_remove h.m key).2 key = none ∧
      (HashMapHandler.run h (.Remove key false :: cs)).2.length =
        cs.length + 1 := by
  intro h key v cs
  refine ⟨rfl, rfl, rfl, hm_lookup_insert_self h.m key v, ?_, rfl, rfl,
    hm_lookup_filter_self h.m key, ?_⟩
  · rw [hm_run_length]; rfl
  · rw [hm_run_length]; rfl

/-- C7: processing `Remove(key, reply)` deletes the entry for that key and
replies with the removed value (`none` when the key was absent); removing a
nonexistent key is reported via the `none` reply and processing of the
remaining commands continues. -/
theorem rendezvous_remove_replies_with_removed :
    ∀ (m : List (Uuid × Bytes)) (key : Uuid) (h : HashMapHandler) (a : Bool)
      (cs : List HashMapCommand),
      (hm_remove m key).1 = hm_lookup m key ∧
      hm_lookup (hm_remove m key).2 key = none ∧
      (HashMapHandler.run h (.Remove key a :: cs)).2.head? =
        some ⟨hm_lookup h.m key, a, !a⟩ ∧
      (HashMapHandler.run h (.Remove key a :: cs)).2.length = cs.length + 1 := by
  intro m key h a cs
  refine ⟨rfl, hm_lookup_filter_self m key, rfl, ?_⟩
  rw [hm_run_length]; rfl

/- ---------------------------------------------------------------- -/
/- Example async pipeline (src/bin/async_pipe.rs)                   -/
/- ---------------------------------------------------------------- -/

/-- Embedding of `raw_ipa::error::Error` restricted to the variants the
example pipeline can surface. -/
inductive PipeError where
  | internal
  | sendFailed
  | receiveFailed
deriving DecidableEq

/-- The `Res<T>` result type (`Result<T, Error>`). -/
abbrev Res (α : Type) := Except PipeError α

/-- Embedding of `SendStr`, a newtype around a string whose `to_string`
returns the wrapped string. -/
structure SendStr where
  s : String

/-- Embedding of `Start::compute`: yields the step's `(x, y)` pair. -/
def start_compute (x y : Int) : Res (Int × Int) :=
  .ok (x, y)

/-- Embedding of `Add::compute`: yields the sum of the input pair. -/
def add_compute (inp : Int × Int) : Res Int :=
  .ok (inp.1 + inp.2)

/-- Embedding of the spawned sub-task inside `PairWith3::compute`
(`tokio::spawn { sleep(500ms); 3 }.await`): the task sleeps and then
resolves to `3`; the sleep has no observable effect in the embedding. -/
def spawn_sleep_three : Res Int :=
  .ok 3

/-- Embedding of `PairWith3::compute`: awaits the spawned sub-task, mapping
a join failure to `Error::Internal` and a success to `(inp, 3)`. -/
def pair_with_3_compute (inp : Int) : Res (Int × Int) :=
  match spawn_sleep_three with
  | .error _ => .error .internal
  | .ok three => .ok (inp, three)

/-- Embedding of `try_join!` on two already-resolved futures: succeeds with
both values iff both succeeded, otherwise fails with an error of one of the
failed branches. -/
def try_join_results {α β : Type} (a : Res α) (b : Res β) : Res (α × β) :=
  match a, b with
  | .ok x, .ok y => .ok (x, y)
  | .error e, _ => .error e
  | .ok _, .error e => .error e

/-- Embedding of `ForwardData::compute`: the send and the receive are awaited
together with `try_join!`; their outcomes enter the embedding as the two
`Res` arguments, and the combined result maps a joint success to the received
string. -/
def forward_data_compute (sendRes : Res Unit) (recvRes : Res SendStr) :
    Res String :=
  (try_join_results sendRes recvRes).map fun p => p.2.s

/-- Whether a `Res` is a success. -/
def resIsOk {α : Type} : Res α → Bool
  | .ok _ => true
  | .error _ => false

/-- Embedding of `ExampleAPipeline::pipeline`: the 4-step chain
`Start(1,2) -> Add -> PairWith3 -> Add` applied to the unit input, with each
step's output bound fail-fast into the next step's input. -/
def example_a_pipeline : Res Int := do
  let s ← start_compute 1 2
  let a ← add_compute s
  let p ← pair_with_3_compute a
  add_compute p

/- ---------------------------------------------------------------- -/
/- Claim theorems for the example pipeline                          -/
/- ---------------------------------------------------------------- -/

/-- C5: `ForwardData::compute` composes the send and the receive fail-fast:
it succeeds iff both the send and the receive succeeded, it fails whenever
either of the two failed (surfacing one of the failing branches' errors),
and on joint success it returns the received string. -/
theorem forward_data_compute_fail_fast :
    ∀ (sendRes : Res Unit) (recvRes : Res SendStr),
      resIsOk (forward_data_compute sendRes recvRes) =
        (resIsOk sendRes && resIsOk recvRes) ∧
      forward_data_compute sendRes recvRes =
        (match sendRes, recvRes with
         | .ok _, .ok v => .ok v.s
         | .error e, _ => .error e
         | .ok _, .error e => .error e) := by
  intro sendRes recvRes
  cases sendRes with
  | ok u =>
    cases recvRes with
    | ok v => exact ⟨rfl, rfl⟩
    | error e => exact ⟨rfl, rfl⟩
  | error e =>
    cases recvRes with
    | ok v => exact ⟨rfl, rfl⟩
    | error e₂ => exact ⟨rfl, rfl⟩

/-- C8: the 4-step example pipeline `Start(1,2) -> Add -> PairWith3 -> Add`
run on the unit input produces the final output `6` (`(1,2)`, then `3`, then
`(3,3)`, then `6`). -/
theorem example_a_pipeline_outputs_six : example_a_pipeline = .ok 6 := rfl

/- ---------------------------------------------------------------- -/
/- Synthetic event generation (src/bin/ipa_bench/init.rs)           -/
/- ---------------------------------------------------------------- -/

/-- A deterministic RNG: an infinite stream of draws and a position. A run
seeded with `ChaCha20Rng::seed_from_u64(seed)` starts at position `0` of the
stream determined by the seed; both the event RNG and the secret-share RNG of
a seeded run start from the same stream. -/
structure Rng where
  g : Nat → Nat
  i : Nat

/-- The current draw of the RNG. -/
def Rng.cur (r : Rng) : Nat := r.g r.i

/-- The RNG state after consuming one draw. -/
def Rng.next (r : Rng) : Rng := ⟨r.g, r.i + 1⟩

/-- Modelled from the spec: `SecretSharable::split` of
`raw_ipa::helpers::models`, which is not under src/. A `w`-bit value is
decomposed into three additive shares, one per holder, whose sum modulo
`2 ^ w` reconstructs it; the first two shares are drawn from the
secret-share RNG and the third completes the sum. -/
def ss_split (w v : Nat) (r : Rng) : List Nat × Rng :=
  ([r.cur % 2 ^ w, r.next.cur % 2 ^ w,
    (v + (2 ^ w - r.cur % 2 ^ w) + (2 ^ w - r.next.cur % 2 ^ w)) % 2 ^ w],
   r.next.next)

/-- Modelled from the spec: `SecretSharable::combine` of
`raw_ipa::helpers::models`, which is not under src/. Sums the shares modulo
`2 ^ w`, failing when the share set is malformed (wrong cardinality). -/
def ss_combine (w : Nat) (shares : List Nat) : Option Nat :=
  if shares.length = 3 then some (shares.sum % 2 ^ w) else none

/-- Modelled from the spec: the `Sample` distributions
(src/bin/ipa_bench/sample.rs is not under src/). Each sampling method
consumes exactly one RNG draw and applies a pure function of it; the claim's
theorem quantifies over all such functions, so any deterministic
rng-consuming distribution is covered. The `u8`/`u32` return types are
widened to `Nat` except where a downstream secret-share split requires the
`u32` bound, which is then applied at the call site. -/
structure Sample where
  reach_per_ad : Nat → Nat
  cvr_per_ad_account : Nat → Nat
  devices_per_user : Nat → Nat
  impression_per_user : Nat → Nat
  conversion_per_user : Nat → Nat
  impressions_time_diff : Nat → Nat
  conversions_time_diff : Nat → Nat
  conversion_value_per_ad : Nat → Nat
  bernoulli : Nat → Nat → Bool

/-- Embedding of `Event` (init.rs): matchkeys fixed at 64 bits, an epoch
byte and a 32-bit timestamp. -/
structure Event where
  matchkeys : List Nat
  epoch : Nat
  timestamp : Nat

/-- Embedding of `SourceEvent` (init.rs). The breakdown key is the ad
identifier (the source stores its decimal string; `toString` on `Nat` is
injective, so the numeric form is kept). -/
structure SourceEvent where
  event : Event
  breakdown_key : Nat

/-- Embedding of `TriggerEvent` (init.rs). -/
structure TriggerEvent where
  event : Event
  value : Nat
  zkp : String

/-- Embedding of `helpers::models::Event`, the secret-shared event body. -/
structure EEvent where
  matchkeys : List (List Nat)
  epoch : Nat
  timestamp : List Nat

/-- Embedding of `helpers::models::SourceEvent`. -/
structure ESourceEvent where
  event : EEvent
  breakdown_key : Nat

/-- Embedding of `helpers::models::TriggerEvent`. -/
structure ETriggerEvent where
  event : EEvent
  value : List Nat
  zkp : String

/-- Embedding of `EventType` (init.rs): plaintext or secret-shared source
and trigger events. -/
inductive EventType where
  | S : SourceEvent → EventType
  | T : TriggerEvent → EventType
  | ES : ESourceEvent → EventType
  | ET : ETriggerEvent → EventType

/-- Embedding of `GenEventParams` (init.rs). -/
structure GenEventParams where
  devices : Nat
  impressions : Nat
  conversions : Nat
  epoch : Nat
  breakdown_key : Nat

/-- Embedding of `gen_matchkeys`: `count` draws of `rng.gen::<u64>()`. -/
def gen_matchkeys : Nat → Rng → List Nat × Rng
  | 0, r => ([], r)
  | n + 1, r =>
    ((r.cur % 2 ^ 64) :: (gen_matchkeys n r.next).1, (gen_matchkeys n r.next).2)

/-- The secret-sharing loop over the generated matchkeys
(`ss_mks.push(mk.split(ss_rng))`). -/
def ss_split_all (w : Nat) : List Nat → Rng → List (List Nat) × Rng
  | [], r => ([], r)
  | v :: vs, r =>
    ((ss_split w v r).1 :: (ss_split_all w vs (ss_split w v r).2).1,
     (ss_split_all w vs (ss_split w v r).2).2)

/-- Embedding of the impressions loop of `gen_events`: each iteration draws
a time difference, converts the cumulative timestamp to `u32`
(`u32::try_from(..).unwrap()` — the panic on overflow is modelled as `none`),
and emits a plaintext or secret-shared source event depending on the
`secret_share` flag. Returns the events, the final `last_impression`, and
the two RNG states. -/
def gen_impressions (sample : Sample) (mks : List Nat)
    (ssMks : List (List Nat)) (epoch bk : Nat) :
    Bool → Nat → Nat → Rng → Rng → Option (List EventType × Nat × Rng × Rng)
  | _, 0, last, rng, ssRng => some ([], last, rng, ssRng)
  | false, n + 1, last, rng, ssRng =>
    if last + sample.impressions_time_diff rng.cur < 2 ^ 32 then
      (gen_impressions sample mks ssMks epoch bk false n
          (last + sample.impressions_time_diff rng.cur) rng.next ssRng).map
        fun rest =>
          (.S ⟨⟨mks, epoch, last + sample.impressions_time_diff rng.cur⟩, bk⟩ ::
            rest.1, rest.2)
    else none
  | true, n + 1, last, rng, ssRng =>
    if last + sample.impressions_time_diff rng.cur < 2 ^ 32 then
      (gen_impressions sample mks ssMks epoch bk true n
          (last + sample.impressions_time_diff rng.cur) rng.next
          (ss_split 32 (last + sample.impressions_time_diff rng.cur) ssRng).2).map
        fun rest =>
          (.ES ⟨⟨ssMks, epoch,
              (ss_split 32 (last + sample.impressions_time_diff rng.cur)
                ssRng).1⟩, bk⟩ :: rest.1, rest.2)
    else none

/-- Embedding of the conversions loop of `gen_events`: each iteration draws a
conversion value (a `u32`, hence the `% 2 ^ 32` bound on the modelled
sampler output) and a time difference, converts the cumulative timestamp to
`u32` (panic on overflow modelled as `none`), and emits a plaintext or
secret-shared trigger event (the timestamp is split first, then the value,
matching the field order of the source's struct literal). -/
def gen_conversions (sample : Sample) (mks : List Nat)
    (ssMks : List (List Nat)) (epoch : Nat) :
    Bool → Nat → Nat → Rng → Rng → Option (List EventType × Nat × Rng × Rng)
  | _, 0, last, rng, ssRng => some ([], last, rng, ssRng)
  | false, n + 1, last, rng, ssRng =>
    if last + sample.conversions_time_diff rng.next.cur < 2 ^ 32 then
      (gen_conversions sample mks ssMks epoch false n
          (last + sample.conversions_time_diff rng.next.cur) rng.next.next
          ssRng).map
        fun rest =>
          (.T ⟨⟨mks, epoch, last + sample.conversions_time_diff rng.next.cur⟩,
              sample.conversion_value_per_ad rng.cur % 2 ^ 32, "zkp"⟩ ::
            rest.1, rest.2)
    else none
  | true, n + 1, last, rng, ssRng =>
    if last + sample.conversions_time_diff rng.next.cur < 2 ^ 32 then
      (gen_conversions sample mks ssMks epoch true n
          (last + sample.conversions_time_diff rng.next.cur) rng.next.next
          (ss_split 32 (sample.conversion_value_per_ad rng.cur % 2 ^ 32)
            (ss_split 32 (last + sample.conversions_time_diff rng.next.cur)
              ssRng).2).2).map
        fun rest =>
          (.ET ⟨⟨ssMks, epoch,
              (ss_split 32 (last + sample.conversions_time_diff rng.next.cur)
                ssRng).1⟩,
              (ss_split 32 (sample.conversion_value_per_ad rng.cur % 2 ^ 32)
                (ss_split 32 (last + sample.conversions_time_diff rng.next.cur)
                  ssRng).2).1, "zkp"⟩ :: rest.1, rest.2)
    else none

/-- Embedding of `gen_events` (init.rs): generate the matchkeys, secret-share
them when `secret_share` is set, draw the initial impression time in
`[0, DAYS_IN_EPOCH·24·60·60)`, then run the impressions and conversions
loops. Returns the events and the two final RNG states. -/
def gen_events (params : GenEventParams) (sample : Sample) :
    Bool → Rng → Rng → Option (List EventType × Rng × Rng)
  | false, rng, ssRng =>
    (gen_impressions sample (gen_matchkeys params.devices rng).1 []
        params.epoch params.breakdown_key false params.impressions
        ((gen_matchkeys params.devices rng).2.cur % (7 * 24 * 60 * 60))
        (gen_matchkeys params.devices rng).2.next ssRng).bind
      fun a =>
        (gen_conversions sample (gen_matchkeys params.devices rng).1 []
            params.epoch false params.conversions a.2.1 a.2.2.1 a.2.2.2).map
          fun b => (a.1 ++ b.1, b.2.2.1, b.2.2.2)
  | true, rng, ssRng =>
    (gen_impressions sample (gen_matchkeys params.devices rng).1
        (ss_split_all 64 (gen_matchkeys params.devices rng).1 ssRng).1
        params.epoch params.breakdown_key true params.impressions
        ((gen_matchkeys params.devices rng).2.cur % (7 * 24 * 60 * 60))
        (gen_matchkeys params.devices rng).2.next
        (ss_split_all 64 (gen_matchkeys params.devices rng).1 ssRng).2).bind
      fun a =>
        (gen_conversions sample (gen_matchkeys params.devices rng).1
            (ss_split_all 64 (gen_matchkeys params.devices rng).1 ssRng).1
            params.epoch true params.conversions a.2.1 a.2.2.1 a.2.2.2).map
          fun b => (a.1 ++ b.1, b.2.2.1, b.2.2.2)

/-- Outcome of the per-user loop inside `generate_events`: either the run hit
`total_count` and returned the emitted events, or the loop over this ad's
reach finished and the outer ad loop continues with the carried state. -/
inductive UserLoopResult where
  | stop (events : List EventType)
  | continued (event_count : Nat) (acc : List EventType) (rng ssRng : Rng)

/-- Embedding of the `for _ in 0..reach` loop of `generate_events`: per user,
draw the device count, the impression count and (behind a Bernoulli draw) the
conversion count, generate that user's events and emit them one at a time,
returning as soon as the running event count reaches `total_count` (the
source checks the count after each write, so when the count is already at the
target at least one further event is still written before the check fires). -/
def user_loop (secret_share : Bool) (sample : Sample)
    (cvr epoch bk total_count : Nat) :
    Nat → Nat → List EventType → Rng → Rng → Option UserLoopResult
  | 0, event_count, acc, rng, ssRng =>
    some (.continued event_count acc rng ssRng)
  | reach + 1, event_count, acc, rng, ssRng =>
    let devices := sample.devices_per_user rng.cur
    let impressions := sample.impression_per_user rng.next.cur
    let converted := sample.bernoulli cvr rng.next.next.cur
    let conversions :=
      if converted then sample.conversion_per_user rng.next.next.next.cur else 0
    let rng₁ := if converted then rng.next.next.next.next else rng.next.next.next
    (gen_events ⟨devices, impressions, conversions, epoch, bk⟩
        sample secret_share rng₁ ssRng).bind fun out =>
      if max 1 (total_count - event_count) ≤ out.1.length then
        some (.stop (acc ++ out.1.take (max 1 (total_count - event_count))))
      else
        user_loop secret_share sample cvr epoch bk total_count reach
          (event_count + out.1.length) (acc ++ out.1) out.2.1 out.2.2

/-- Embedding of the outer ad loop of `generate_events`: per ad, draw the ad
identifier (`rng.gen::<u32>()`), the reach and the CVR, then run the user
loop. The source loop runs until `total_count` events have been emitted and
has no intrinsic iteration bound, so the embedding bounds the number of ads
by explicit fuel and returns the events emitted so far at exhaustion. -/
def ad_loop (secret_share : Bool) (sample : Sample) (total_count epoch : Nat) :
    Nat → Nat → List EventType → Rng → Rng → Option (List EventType)
  | 0, _, acc, _, _ => some acc
  | fuel + 1, event_count, acc, rng, ssRng =>
    let ad_id := rng.cur % 2 ^ 32
    let reach := sample.reach_per_ad rng.next.cur
    let cvr := sample.cvr_per_ad_account rng.next.next.cur
    match user_loop secret_share sample cvr epoch ad_id total_count reach
        event_count acc rng.next.next.next ssRng with
    | none => none
    | some (.stop events) => some events
    | some (.continued ec acc' rng' ssRng') =>
      ad_loop secret_share sample total_count epoch fuel ec acc' rng' ssRng'

/-- Embedding of `generate_events` (init.rs): with a seed given, both the
event RNG and the secret-share RNG are seeded from the same `u64` seed, so
both start at position `0` of the same stream `g`. The returned value is the
stream of events written to `out` (`none` models a timestamp-conversion
panic). -/
def generate_events (fuel total_count epoch : Nat) (secret_share : Bool)
    (sample : Sample) (g : Nat → Nat) : Option (List EventType) :=
  ad_loop secret_share sample total_count epoch fuel 0 [] ⟨g, 0⟩ ⟨g, 0⟩

/-- The reconstruction property for one matchkey: combining the share vector
reproduces the plaintext matchkey. -/
def mk_combines (mk : Nat) (smk : List Nat) : Prop :=
  ss_combine 64 smk = some mk

/-- How a secret-shared event at some position of the secret-shared run must
relate to the plaintext event at the same position of the plaintext run:
combining the shared matchkeys, timestamp and (for trigger events) value
reproduces the plaintext fields exactly, and the copied-through fields
(epoch, breakdown key, zkp) agree. -/
def event_matches : EventType → EventType → Prop
  | .S s, .ES es =>
    List.Forall₂ mk_combines s.event.matchkeys es.event.matchkeys ∧
    ss_combine 32 es.event.timestamp = some s.event.timestamp ∧
    es.event.epoch = s.event.epoch ∧ es.breakdown_key = s.breakdown_key
  | .T t, .ET et =>
    List.Forall₂ mk_combines t.event.matchkeys et.event.matchkeys ∧
    ss_combine 32 et.event.timestamp = some t.event.timestamp ∧
    ss_combine 32 et.value = some t.value ∧
    et.event.epoch = t.event.epoch ∧ et.zkp = t.zkp
  | _, _ => False

/-- Alignment of two whole runs: both panic, or both produce event lists that
match position by position. -/
def runs_align : Option (List EventType) → Option (List EventType) → Prop
  | none, none => True
  | some l₁, some l₂ => List.Forall₂ event_matches l₁ l₂
  | _, _ => False

/-- Alignment of the intermediate results of the impressions/conversions
loops: both panic, or the event lists match position by position, the carried
timestamps agree and the event-RNG states agree. -/
def step_align :
    Option (List EventType × Nat × Rng × Rng) →
    Option (List EventType × Nat × Rng × Rng) → Prop
  | none, none => True
  | some a, some b =>
    List.Forall₂ event_matches a.1 b.1 ∧ a.2.1 = b.2.1 ∧ a.2.2.1 = b.2.2.1
  | _, _ => False

/-- Alignment of the results of `gen_events`: both panic, or the event lists
match position by position and the event-RNG states agree. -/
def events_align :
    Option (List EventType × Rng × Rng) →
    Option (List EventType × Rng × Rng) → Prop
  | none, none => True
  | some a, some b => List.Forall₂ event_matches a.1 b.1 ∧ a.2.1 = b.2.1
  | _, _ => False

/-- Alignment of the results of the per-user loop. -/
def user_align : Option UserLoopResult → Option UserLoopResult → Prop
  | none, none => True
  | some (.stop e₁), some (.stop e₂) => List.Forall₂ event_matches e₁ e₂
  | some (.continued ec₁ a₁ r₁ _), some (.continued ec₂ a₂ r₂ _) =>
    ec₁ = ec₂ ∧ List.Forall₂ event_matches a₁ a₂ ∧ r₁ = r₂
  | _, _ => False

/- ---------------------------------------------------------------- -/
/- Helper lemmas for the event-generation model                     -/
/- ---------------------------------------------------------------- -/

theorem three_share_sum (m v a b : Nat) (hv : v < m) (ha : a ≤ m) (hb : b ≤ m) :
    (a + (b + ((v + (m - a) + (m - b)) % m + 0))) % m = v := by
  rw [Nat.add_zero, ← Nat.add_assoc, Nat.add_mod_mod]
  have h : a + b + (v + (m - a) + (m - b)) = v + 2 * m := by omega
  rw [h, two_mul, ← Nat.add_assoc, Nat.add_mod_right, Nat.add_mod_right,
    Nat.mod_eq_of_lt hv]

theorem ss_combine_split (w v : Nat) (r : Rng) (hv : v < 2 ^ w) :
    ss_combine w (ss_split w v r).1 = some v := by
  have hw : 0 < 2 ^ w := Nat.two_pow_pos w
  rw [show ss_combine w (ss_split w v r).1 =
        some ((r.cur % 2 ^ w +
          (r.next.cur % 2 ^ w +
            ((v + (2 ^ w - r.cur % 2 ^ w) + (2 ^ w - r.next.cur % 2 ^ w)) %
                2 ^ w + 0))) % 2 ^ w) from rfl]
  rw [three_share_sum (2 ^ w) v _ _ hv (le_of_lt (Nat.mod_lt _ hw))
    (le_of_lt (Nat.mod_lt _ hw))]

theorem gen_matchkeys_lt (n : Nat) (r : Rng) :
    ∀ mk ∈ (gen_matchkeys n r).1, mk < 2 ^ 64 := by
  induction n generalizing r with
  | zero => intro mk hmk; simp [gen_matchkeys] at hmk
  | succ n ih =>
    intro mk hmk
    simp only [gen_matchkeys, List.mem_cons] at hmk
    rcases hmk with h | h
    · subst h; exact Nat.mod_lt _ (Nat.two_pow_pos 64)
    · exact ih r.next mk h

theorem ss_split_all_forall2 (mks : List Nat) (r : Rng)
    (h : ∀ mk ∈ mks, mk < 2 ^ 64) :
    List.Forall₂ mk_combines mks (ss_split_all 64 mks r).1 := by
  induction mks generalizing r with
  | nil => exact List.Forall₂.nil
  | cons v vs ih =>
    exact List.Forall₂.cons (ss_combine_split 64 v r (h v (by simp)))
      (ih _ fun mk hmk => h mk (by simp [hmk]))

theorem gen_impressions_align (sample : Sample) (mks : List Nat)
    (ssMks₀ ssMks : List (List Nat)) (epoch bk : Nat)
    (hmk : List.Forall₂ mk_combines mks ssMks) :
    ∀ (n last : Nat) (rng s s' : Rng),
      step_align
        (gen_impressions sample mks ssMks₀ epoch bk false n last rng s)
        (gen_impressions sample mks ssMks epoch bk true n last rng s') := by
  intro n
  induction n with
  | zero =>
    intro last rng s s'
    simp [gen_impressions, step_align]
  | succ n ih =>
    intro last rng s s'
    simp only [gen_impressions]
    by_cases ht : last + sample.impressions_time_diff rng.cur < 2 ^ 32
    · rw [if_pos ht, if_pos ht]
      have h := ih (last + sample.impressions_time_diff rng.cur) rng.next s
        (ss_split 32 (last + sample.impressions_time_diff rng.cur) s').2
      rcases hf : (gen_impressions sample mks ssMks₀ epoch bk false n
          (last + sample.impressions_time_diff rng.cur) rng.next s) with _ | a
      all_goals rcases htr : (gen_impressions sample mks ssMks epoch bk true n
          (last + sample.impressions_time_diff rng.cur) rng.next
          (ss_split 32 (last + sample.impressions_time_diff rng.cur) s').2)
        with _ | b
      all_goals rw [hf, htr] at h
      all_goals simp only [step_align, Option.map_none', Option.map_some'] at h ⊢
      refine ⟨List.Forall₂.cons ?_ h.1, h.2.1, h.2.2⟩
      exact ⟨hmk, ss_combine_split 32 _ s' ht, rfl, rfl⟩
    · rw [if_neg ht, if_neg ht]
      simp [step_align]

theorem gen_conversions_align (sample : Sample) (mks : List Nat)
    (ssMks₀ ssMks : List (List Nat)) (epoch : Nat)
    (hmk : List.Forall₂ mk_combines mks ssMks) :
    ∀ (n last : Nat) (rng s s' : Rng),
      step_align
        (gen_conversions sample mks ssMks₀ epoch false n last rng s)
        (gen_conversions sample mks ssMks epoch true n last rng s') := by
  intro n
  induction n with
  | zero =>
    intro last rng s s'
    simp [gen_conversions, step_align]
  | succ n ih =>
    intro last rng s s'
    simp only [gen_conversions]
    by_cases ht : last + sample.conversions_time_diff rng.next.cur < 2 ^ 32
    · rw [if_pos ht, if_pos ht]
      have h := ih (last + sample.conversions_time_diff rng.next.cur)
        rng.next.next s
        (ss_split 32 (sample.conversion_value_per_ad rng.cur % 2 ^ 32)
          (ss_split 32 (last + sample.conversions_time_diff rng.next.cur) s').2).2
      rcases hf : (gen_conversions sample mks ssMks₀ epoch false n
          (last + sample.conversions_time_diff rng.next.cur) rng.next.next s)
        with _ | a
      all_goals rcases htr : (gen_conversions sample mks ssMks epoch true n
          (last + sample.conversions_time_diff rng.next.cur) rng.next.next
          (ss_split 32 (sample.conversion_value_per_ad rng.cur % 2 ^ 32)
            (ss_split 32 (last + sample.conversions_time_diff rng.next.cur)
              s').2).2)
        with _ | b
      all_goals rw [hf, htr] at h
      all_goals simp only [step_align, Option.map_none', Option.map_some'] at h ⊢
      refine ⟨List.Forall₂.cons ?_ h.1, h.2.1, h.2.2⟩
      refine ⟨hmk, ss_combine_split 32 _ s' ht, ?_, rfl, rfl⟩
      exact ss_combine_split 32 _ _ (Nat.mod_lt _ (Nat.two_pow_pos 32))
    · rw [if_neg ht, if_neg ht]
      simp [step_align]

theorem gen_events_align (params : GenEventParams) (sample : Sample) :
    ∀ (rng s s' : Rng),
      events_align (gen_events params sample false rng s)
        (gen_events params sample true rng s') := by
  intro rng s s'
  simp only [gen_events]
  have hmk : List.Forall₂ mk_combines (gen_matchkeys params.devices rng).1
      (ss_split_all 64 (gen_matchkeys params.devices rng).1 s').1 :=
    ss_split_all_forall2 _ _ (gen_matchkeys_lt _ _)
  have h₁ := gen_impressions_align sample (gen_matchkeys params.devices rng).1
    [] (ss_split_all 64 (gen_matchkeys params.devices rng).1 s').1
    params.epoch params.breakdown_key hmk params.impressions
    ((gen_matchkeys params.devices rng).2.cur % (7 * 24 * 60 * 60))
    (gen_matchkeys params.devices rng).2.next s
    (ss_split_all 64 (gen_matchkeys params.devices rng).1 s').2
  rcases hif : (gen_impressions sample (gen_matchkeys params.devices rng).1
      [] params.epoch params.breakdown_key false params.impressions
      ((gen_matchkeys params.devices rng).2.cur % (7 * 24 * 60 * 60))
      (gen_matchkeys params.devices rng).2.next s) with _ | a
  all_goals rcases hit : (gen_impressions sample
      (gen_matchkeys params.devices rng).1
      (ss_split_all 64 (gen_matchkeys params.devices rng).1 s').1
      params.epoch params.breakdown_key true params.impressions
      ((gen_matchkeys params.devices rng).2.cur % (7 * 24 * 60 * 60))
      (gen_matchkeys params.devices rng).2.next
      (ss_split_all 64 (gen_matchkeys params.devices rng).1 s').2) with _ | b
  all_goals rw [hif, hit] at h₁
  all_goals simp only [step_align] at h₁
  all_goals simp only [Option.none_bind, Option.some_bind]
  · simp [events_align]
  · obtain ⟨hev₁, hlast, hrng⟩ := h₁
    rw [hlast, hrng]
    have h₂ := gen_conversions_align sample (gen_matchkeys params.devices rng).1
      [] (ss_split_all 64 (gen_matchkeys params.devices rng).1 s').1
      params.epoch hmk params.conversions b.2.1 b.2.2.1 a.2.2.2 b.2.2.2
    rcases hcf : (gen_conversions sample
        (gen_matchkeys params.devices rng).1 [] params.epoch false
        params.conversions b.2.1 b.2.2.1 a.2.2.2) with _ | c
    all_goals rcases hct : (gen_conversions sample
        (gen_matchkeys params.devices rng).1
        (ss_split_all 64 (gen_matchkeys params.devices rng).1 s').1
        params.epoch true params.conversions b.2.1 b.2.2.1 b.2.2.2) with _ | d
    all_goals rw [hcf, hct] at h₂
    all_goals simp only [step_align] at h₂
    all_goals simp only [Option.map_none', Option.map_some']
    · simp [events_align]
    · exact ⟨List.rel_append hev₁ h₂.1, h₂.2.2⟩

theorem user_loop_align (sample : Sample) (cvr epoch bk tc : Nat) :
    ∀ (reach ec : Nat) (acc₁ acc₂ : List EventType) (rng s s' : Rng),
      List.Forall₂ event_matches acc₁ acc₂ →
      user_align
        (user_loop false sample cvr epoch bk tc reach ec acc₁ rng s)
        (user_loop true sample cvr epoch bk tc reach ec acc₂ rng s') := by
  intro reach
  induction reach with
  | zero =>
    intro ec acc₁ acc₂ rng s s' hacc
    simp only [user_loop, user_align]
    exact ⟨trivial, hacc, trivial⟩
  | succ reach ih =>
    intro ec acc₁ acc₂ rng s s' hacc
    simp only [user_loop]
    have h := gen_events_align
      ⟨sample.devices_per_user rng.cur, sample.impression_per_user rng.next.cur,
        (if sample.bernoulli cvr rng.next.next.cur then
          sample.conversion_per_user rng.next.next.next.cur else 0),
        epoch, bk⟩ sample
      (if sample.bernoulli cvr rng.next.next.cur then rng.next.next.next.next
        else rng.next.next.next) s s'
    rcases hge₁ : (gen_events
        ⟨sample.devices_per_user rng.cur, sample.impression_per_user rng.next.cur,
          (if sample.bernoulli cvr rng.next.next.cur then
            sample.conversion_per_user rng.next.next.next.cur else 0),
          epoch, bk⟩ sample false
        (if sample.bernoulli cvr rng.next.next.cur then rng.next.next.next.next
          else rng.next.next.next) s) with _ | out₁
    all_goals rcases hge₂ : (gen_events
        ⟨sample.devices_per_user rng.cur, sample.impression_per_user rng.next.cur,
          (if sample.bernoulli cvr rng.next.next.cur then
            sample.conversion_per_user rng.next.next.next.cur else 0),
          epoch, bk⟩ sample true
        (if sample.bernoulli cvr rng.next.next.cur then rng.next.next.next.next
          else rng.next.next.next) s') with _ | out₂
    all_goals rw [hge₁, hge₂] at h
    all_goals simp only [events_align] at h
    all_goals simp only [Option.none_bind, Option.some_bind]
    · simp [user_align]
    · obtain ⟨hev, hrng⟩ := h
      have hlen : out₁.1.length = out₂.1.length := hev.length_eq
      by_cases hstop : max 1 (tc - ec) ≤ out₁.1.length
      · rw [if_pos hstop, if_pos (hlen ▸ hstop)]
        simp only [user_align]
        exact List.rel_append hacc (List.forall₂_take _ hev)
      · rw [if_neg hstop, if_neg (hlen ▸ hstop)]
        rw [hlen, hrng]
        exact ih (ec + out₂.1.length) (acc₁ ++ out₁.1) (acc₂ ++ out₂.1)
          out₂.2.1 out₁.2.2 out₂.2.2 (List.rel_append hacc hev)

theorem ad_loop_align (sample : Sample) (tc epoch : Nat) :
    ∀ (fuel ec : Nat) (acc₁ acc₂ : List EventType) (rng s s' : Rng),
      List.Forall₂ event_matches acc₁ acc₂ →
      runs_align (ad_loop false sample tc epoch fuel ec acc₁ rng s)
        (ad_loop true sample tc epoch fuel ec acc₂ rng s') := by
  intro fuel
  induction fuel with
  | zero =>
    intro ec acc₁ acc₂ rng s s' hacc
    simp only [ad_loop, runs_align]
    exact hacc
  | succ fuel ih =>
    intro ec acc₁ acc₂ rng s s' hacc
    simp only [ad_loop]
    have h := user_loop_align sample (sample.cvr_per_ad_account rng.next.next.cur)
      epoch (rng.cur % 2 ^ 32) tc (sample.reach_per_ad rng.next.cur) ec acc₁ acc₂
      rng.next.next.next s s' hacc
    rcases hu₁ : (user_loop false sample
        (sample.cvr_per_ad_account rng.next.next.cur) epoch (rng.cur % 2 ^ 32)
        tc (sample.reach_per_ad rng.next.cur) ec acc₁ rng.next.next.next s)
      with _ | (⟨evs₁⟩ | ⟨ec₁, a₁, rng₁, ss₁⟩)
    all_goals rcases hu₂ : (user_loop true sample
        (sample.cvr_per_ad_account rng.next.next.cur) epoch (rng.cur % 2 ^ 32)
        tc (sample.reach_per_ad rng.next.cur) ec acc₂ rng.next.next.next s')
      with _ | (⟨evs₂⟩ | ⟨ec₂, a₂, rng₂, ss₂⟩)
    all_goals rw [hu₁, hu₂] at h
    all_goals simp only [user_align] at h
    · simp [runs_align]
    · exact h
    · obtain ⟨hec, hacc', hrng⟩ := h
      subst hec
      subst hrng
      exact ih ec₁ a₁ a₂ rng₁ ss₁ ss₂ hacc'

/- ---------------------------------------------------------------- -/
/- Claim theorem for the event generator                            -/
/- ---------------------------------------------------------------- -/

/-- C4: running `generate_events` twice with the same seed, the same
`total_count` and the same epoch — once with `secret_share` disabled and once
with it enabled — either makes both runs fail identically or produces two
event streams of equal length in which, at every position, combining the
secret-shared matchkeys, timestamp and (for trigger events) value of the
secret-shared run's event reproduces exactly the plaintext fields of the
plaintext run's event (and the epoch, breakdown key and zkp fields agree).
The statement quantifies over every sampler, seed stream, ad-loop fuel and
`total_count`, so it covers the claimed `total_count = 10000` instance. -/
theorem generate_events_secret_share_consistent :
    ∀ (sample : Sample) (g : Nat → Nat) (fuel total_count epoch : Nat),
      runs_align
        (generate_events fuel total_count epoch false sample g)
        (generate_events fuel total_count epoch true sample g) := by
  intro sample g fuel total_count epoch
  exact ad_loop_align sample total_count epoch fuel 0 [] [] ⟨g, 0⟩ ⟨g, 0⟩ ⟨g, 0⟩
    List.Forall₂.nil
